import Mathlib

set_option maxHeartbeats 1000000

/-!
Verification of the `runtime` schema-validation engine.

The development embeds the two schema modules of the repository
(`src/schema.ts`, built on `src/result.ts`/`src/option.ts`/`src/util.ts`,
and the self-contained `src/mod.ts`) over a model of untyped JavaScript
runtime values, and proves the specified properties of `parse`.
-/

/-- Numbers as JavaScript sees them: a finite value, or one of the
non-finite specials (`NaN`, `Infinity`, `-Infinity`) that
`Number.isFinite` rejects. -/
inductive JSNum where
  | finite (q : ℚ)
  | nan
  | inf
  | neginf

/-- The prototype data `isPlainObject` inspects: `Object.create(null)`
yields a value with no prototype, object literals carry the default
`Object.prototype`, and every other runtime value (arrays, dates, class
instances, boxed primitives) carries some other prototype, identified
here by a name. -/
inductive Proto where
  | pnull
  | pobject
  | pother (name : String)
deriving DecidableEq, BEq

/-- Untyped runtime values flowing through `parse`.  Object fields are an
insertion-ordered association list (JavaScript objects hold at most one
property per key).  `vSome`/`vNone` are the Option container objects the
library's `Some`/`None`/`from` build: plain `\x7bsome, value\x7d` records with
the default prototype. -/
inductive JSValue where
  | vNull
  | vUndefined
  | vBool (b : Bool)
  | vNum (n : JSNum)
  | vStr (s : String)
  | vDate (t : JSNum)
  | vArr (elems : List JSValue)
  | vObj (proto : Proto) (fields : List (String × JSValue))
  | vSome (v : JSValue)
  | vNone

/-- `src/result.ts`: `Result<T, E>` with variants `Ok`/`Err`. -/
inductive Result (T E : Type) where
  | Ok (value : T)
  | Err (error : E)

export Result (Ok Err)

/-- `src/schema.ts`: `ParseError = \x7b path, message, input \x7d`. -/
structure ParseError where
  path : List String
  message : String
  input : JSValue

/-- `src/result.ts` `isErr`. -/
def isErr {T E : Type} : Result T E → Bool
  | Ok _ => false
  | Err _ => true

/-- `src/result.ts` `map(result, fn)`. -/
def rmap {T E U : Type} (result : Result T E) (fn : T → U) : Result U E :=
  match result with
  | Ok value => Ok (fn value)
  | Err error => Err error

/-- `src/result.ts` `unwrap`: yields the `Ok` value; calling it on an
`Err` raises, which this pure model records as `none` (an abort). -/
def unwrap {T E : Type} : Result T E → Option T
  | Ok value => some value
  | Err _ => none

/-- `src/result.ts` `unwrapErr`: yields the `Err` error; calling it on an
`Ok` raises, modeled as `none` (an abort). -/
def unwrapErr {T E : Type} : Result T E → Option E
  | Ok _ => none
  | Err error => some error

/-- `src/util.ts` `isNil`: `undefined` or `null`. -/
def isNil : JSValue → Bool
  | .vNull => true
  | .vUndefined => true
  | _ => false

/-- `Object.getPrototypeOf` on a non-nil value.  Arrays, dates and boxed
primitives all have their own (non-default) prototypes.  The Option
container objects are plain literals, so they carry `Object.prototype`.
(`isPlainObject` only reads this after its nil guard, so the value
returned on nil inputs is never observed.) -/
def protoOf : JSValue → Proto
  | .vObj proto _ => proto
  | .vArr _ => .pother "Array"
  | .vDate _ => .pother "Date"
  | .vBool _ => .pother "Boolean"
  | .vNum _ => .pother "Number"
  | .vStr _ => .pother "String"
  | .vSome _ => .pobject
  | .vNone => .pobject
  | .vNull => .pother "nil"
  | .vUndefined => .pother "nil"

/-- `src/util.ts` `isPlainObject`: non-nil and the prototype is `null` or
the default `Object.prototype`.  (`src/mod.ts` inlines an identical
definition.) -/
def isPlainObject (input : JSValue) : Bool :=
  if isNil input then false
  else protoOf input == .pnull || protoOf input == .pobject

/-- `src/option.ts` `from`: nil becomes `None`, anything else `Some`. -/
def optionFrom (value : JSValue) : JSValue :=
  if isNil value then .vNone else .vSome value

/-- The own enumerable fields of a value, in insertion order.  The Option
container objects expose their `some`/`value` fields. -/
def fieldsOf : JSValue → List (String × JSValue)
  | .vObj _ fields => fields
  | .vSome v => [("some", .vBool true), ("value", v)]
  | .vNone => [("some", .vBool false)]
  | _ => []

/-- `input[key]`: the field's value when present, `undefined` otherwise. -/
def getField (input : JSValue) (key : String) : JSValue :=
  match (fieldsOf input).lookup key with
  | some w => w
  | none => .vUndefined

/-- `Number.isFinite` on a `JSNum`. -/
def jsNumIsFinite : JSNum → Bool
  | .finite _ => true
  | _ => false

/-- The guard of `number()`: `typeof input === "number" &&
Number.isFinite(input)`. -/
def isFiniteNumber : JSValue → Bool
  | .vNum n => jsNumIsFinite n
  | _ => false

/- Schema trees, one constructor per factory of the engine
(`string`, `number`, `boolean`, `date`, `array`, `object`, `optional`,
`defaulted`).  `ShapeL` is the ordered field list of an `object` schema
(the insertion order of the shape's keys). -/
mutual
inductive Sch where
  | string
  | number
  | boolean
  | date
  | array (schema : Sch)
  | object (shape : ShapeL)
  | optional (schema : Sch)
  | defaulted (schema : Sch) (defaultValue : JSValue)
inductive ShapeL where
  | snil
  | scons (key : String) (schema : Sch) (rest : ShapeL)
end

/-- The `type` label of a schema.  `optional` wraps the child's label in
`option<...>`; `defaulted` spreads the child and overrides only `parse`,
so the label is inherited. -/
def typeOf : Sch → String
  | .string => "string"
  | .number => "number"
  | .boolean => "boolean"
  | .date => "date"
  | .array s => "array<" ++ typeOf s ++ ">"
  | .object _ => "object"
  | .optional s => "option<" ++ typeOf s ++ ">"
  | .defaulted s _ => typeOf s

/-- The keys of a shape, in declaration order. -/
def shapeKeys : ShapeL → List String
  | .snil => []
  | .scons key _ rest => key :: shapeKeys rest

/-- `(key, schema)` is one of the shape's fields. -/
def shapeMem (key : String) (schema : Sch) : ShapeL → Prop
  | .snil => False
  | .scons k s rest => (key = k ∧ schema = s) ∨ shapeMem key schema rest

/-- `src/schema.ts` `createErr`: an error with an empty path. -/
def createErr {T : Type} (message : String) (input : JSValue) :
    Result T ParseError :=
  Err { path := [], message := message, input := input }

/-- The element loop of `src/schema.ts` `array`: walk the elements from
index `i`, and on the first child failure prepend the stringified index
to its path and stop. -/
def parseElems (p : JSValue → Result JSValue ParseError) :
    Nat → List JSValue → Result (List JSValue) ParseError
  | _, [] => Ok []
  | i, x :: xs =>
    match p x with
    | Err e => Err { e with path := toString i :: e.path }
    | Ok w =>
      match parseElems p (i + 1) xs with
      | Err e => Err e
      | Ok ws => Ok (w :: ws)

/- `src/schema.ts`: `parse` of each schema constructor, and the field
loop of `object` (`for (const key in shape)`), which on the first child
failure prepends the key to its path and stops, and otherwise collects
the parsed fields in shape order into a fresh `Object.create(null)`
record. -/
mutual
def parse : Sch → JSValue → Result JSValue ParseError
  | .string, input =>
    match input with
    | .vStr s => Ok (.vStr s)
    | _ => createErr "Expecting string" input
  | .number, input =>
    if isFiniteNumber input then Ok input
    else createErr "Expecting number" input
  | .boolean, input =>
    match input with
    | .vBool b => Ok (.vBool b)
    | _ => createErr "Expecting boolean" input
  | .date, input =>
    match input with
    | .vDate t =>
      if jsNumIsFinite t then Ok (.vDate t)
      else createErr "Expecting valid date" input
    | _ => createErr "Expecting valid date" input
  | .array s, input =>
    match input with
    | .vArr l =>
      match parseElems (parse s) 0 l with
      | Err e => Err e
      | Ok ws => Ok (.vArr ws)
    | _ => createErr "Expecting array" input
  | .object shape, input =>
    if isPlainObject input then
      match parseShape shape input with
      | Err e => Err e
      | Ok fl => Ok (.vObj .pnull fl)
    else createErr "Expecting object" input
  | .optional s, input =>
    if isNil input then Ok .vNone
    else rmap (parse s input) optionFrom
  | .defaulted s d, input =>
    if isNil input then Ok d else parse s input
  termination_by structural s _ => s
def parseShape : ShapeL → JSValue → Result (List (String × JSValue)) ParseError
  | .snil, _ => Ok []
  | .scons key s rest, input =>
    match parse s (getField input key) with
    | Err e => Err { e with path := key :: e.path }
    | Ok w =>
      match parseShape rest input with
      | Err e => Err e
      | Ok fl => Ok ((key, w) :: fl)
  termination_by structural sh _ => sh
end

/-- The element loop of `src/mod.ts` `array`.  `src/mod.ts` checks
`result.isErr()` and then extracts with the fatal accessors
`result.unwrapErr()` / `result.unwrap()`.  The embedding returns `none`
if any accessor aborts, and counts the accessor invocations in the `Nat`
component. -/
def modParseElems (p : JSValue → Option (Result JSValue ParseError × Nat)) :
    Nat → List JSValue → Option (Result (List JSValue) ParseError × Nat)
  | _, [] => some (Ok [], 0)
  | i, x :: xs =>
    match p x with
    | none => none
    | some (result, n) =>
      if isErr result then
        match unwrapErr result with
        | none => none
        | some e => some (Err { e with path := toString i :: e.path }, n + 1)
      else
        match unwrap result with
        | none => none
        | some w =>
          match modParseElems p (i + 1) xs with
          | none => none
          | some (Ok ws, m) => some (Ok (w :: ws), n + 1 + m)
          | some (Err e, m) => some (Err e, n + 1 + m)

/- `src/mod.ts`: the near-duplicate schema module.  Its primitive
messages for `string`/`number` are "Not a string" / "Expecting finite
number"; its `array`/`object` loops extract child results with the
fatal `unwrapErr`/`unwrap` accessors after an `isErr` check; its
`optional` wraps successes directly in `Some`.  As in `modParseElems`,
`none` marks an abort of a fatal accessor, and the `Nat` counts how many
times the fatal accessors were invoked. -/
mutual
def modParse : Sch → JSValue → Option (Result JSValue ParseError × Nat)
  | .string, input =>
    some (match input with
      | .vStr s => Ok (.vStr s)
      | _ => createErr "Not a string" input, 0)
  | .number, input =>
    some (if isFiniteNumber input then Ok input
      else createErr "Expecting finite number" input, 0)
  | .boolean, input =>
    some (match input with
      | .vBool b => Ok (.vBool b)
      | _ => createErr "Expecting boolean" input, 0)
  | .date, input =>
    some (match input with
      | .vDate t =>
        if jsNumIsFinite t then Ok (.vDate t)
        else createErr "Expecting valid date" input
      | _ => createErr "Expecting valid date" input, 0)
  | .array s, input =>
    match input with
    | .vArr l =>
      match modParseElems (modParse s) 0 l with
      | none => none
      | some (Err e, n) => some (Err e, n)
      | some (Ok ws, n) => some (Ok (.vArr ws), n)
    | _ => some (createErr "Expecting array" input, 0)
  | .object shape, input =>
    if isPlainObject input then
      match modParseShape shape input with
      | none => none
      | some (Err e, n) => some (Err e, n)
      | some (Ok fl, n) => some (Ok (.vObj .pnull fl), n)
    else some (createErr "Expecting object" input, 0)
  | .optional s, input =>
    if isNil input then some (Ok .vNone, 0)
    else
      match modParse s input with
      | none => none
      | some (r, n) => some (rmap r JSValue.vSome, n)
  | .defaulted s d, input =>
    if isNil input then some (Ok d, 0) else modParse s input
  termination_by structural s _ => s
def modParseShape : ShapeL → JSValue →
    Option (Result (List (String × JSValue)) ParseError × Nat)
  | .snil, _ => some (Ok [], 0)
  | .scons key s rest, input =>
    match modParse s (getField input key) with
    | none => none
    | some (result, n) =>
      if isErr result then
        match unwrapErr result with
        | none => none
        | some e => some (Err { e with path := key :: e.path }, n + 1)
      else
        match unwrap result with
        | none => none
        | some w =>
          match modParseShape rest input with
          | none => none
          | some (Ok fl, m) => some (Ok ((key, w) :: fl), n + 1 + m)
          | some (Err e, m) => some (Err e, n + 1 + m)
  termination_by structural sh _ => sh
end

/-- The wording difference between the two modules' primitive error
messages: `src/schema.ts` says "Expecting string" / "Expecting number"
where `src/mod.ts` says "Not a string" / "Expecting finite number". -/
def renameMsg : String → String
  | "Expecting string" => "Not a string"
  | "Expecting number" => "Expecting finite number"
  | m => m

/-- Apply the message renaming to an error, leaving path and offending
input untouched. -/
def renameErr (e : ParseError) : ParseError :=
  { e with message := renameMsg e.message }

/-- Apply the message renaming to a result; success values are
untouched. -/
def renameRes {T : Type} : Result T ParseError → Result T ParseError
  | Ok w => Ok w
  | Err e => Err (renameErr e)

/- Schemas "built only from `string()`, `number()`, `boolean()`,
`array(...)` and `object(...)`".  A shape built from a TypeScript object
literal holds at most one field per key, which `isCoreShape` records by
requiring each key to be absent from the remaining fields. -/
mutual
def isCore : Sch → Bool
  | .string => true
  | .number => true
  | .boolean => true
  | .array s => isCore s
  | .object sh => isCoreShape sh
  | _ => false
  termination_by structural s => s
def isCoreShape : ShapeL → Bool
  | .snil => true
  | .scons key s rest =>
    !(shapeKeys rest).contains key && isCore s && isCoreShape rest
  termination_by structural sh => sh
end

/-- Simultaneous induction over a schema tree and its shapes. -/
theorem schShapeInd (P : Sch → Prop) (Q : ShapeL → Prop)
    (hs : P .string) (hn : P .number) (hb : P .boolean) (hd : P .date)
    (ha : ∀ s, P s → P (.array s))
    (ho : ∀ sh, Q sh → P (.object sh))
    (hop : ∀ s, P s → P (.optional s))
    (hdf : ∀ s d, P s → P (.defaulted s d))
    (h0 : Q .snil)
    (h1 : ∀ key s rest, P s → Q rest → Q (.scons key s rest)) :
    (∀ s, P s) ∧ (∀ sh, Q sh) :=
  ⟨fun s => @Sch.rec P Q hs hn hb hd ha ho hop hdf h0 h1 s,
   fun sh => @ShapeL.rec P Q hs hn hb hd ha ho hop hdf h0 h1 sh⟩

/-- Induction over the spine of a shape alone. -/
theorem shapeSpineInd (Q : ShapeL → Prop) (h0 : Q .snil)
    (h1 : ∀ key s rest, Q rest → Q (.scons key s rest)) : ∀ sh, Q sh :=
  (schShapeInd (fun _ => True) Q trivial trivial trivial trivial
    (fun _ _ => trivial) (fun _ _ => trivial) (fun _ _ => trivial)
    (fun _ _ _ => trivial) h0 (fun key s rest _ hq => h1 key s rest hq)).2

/-- Induction over a schema where the `object` case needs no hypothesis
about its shape. -/
theorem schSpineInd (P : Sch → Prop)
    (hs : P .string) (hn : P .number) (hb : P .boolean) (hd : P .date)
    (ha : ∀ s, P s → P (.array s))
    (ho : ∀ sh, P (.object sh))
    (hop : ∀ s, P s → P (.optional s))
    (hdf : ∀ s d, P s → P (.defaulted s d)) : ∀ s, P s :=
  (schShapeInd P (fun _ => True) hs hn hb hd ha (fun sh _ => ho sh) hop hdf
    trivial (fun _ _ _ _ _ => trivial)).1

/-- Every error of the array element loop is some element's error with
the element's (absolute) stringified index prepended as the only new
path segment; message and offending input are the child's. -/
theorem parseElems_err (p : JSValue → Result JSValue ParseError) :
    ∀ (l : List JSValue) (i : Nat) (e : ParseError),
      parseElems p i l = Err e →
      ∃ j x e', l.get? j = some x ∧ p x = Err e' ∧
        e = ⟨toString (i + j) :: e'.path, e'.message, e'.input⟩ := by
  intro l
  induction l with
  | nil => intro i e h; simp [parseElems] at h
  | cons x xs ih =>
    intro i e h
    simp only [parseElems] at h
    cases hx : p x with
    | Err e0 =>
      rw [hx] at h
      simp only [Result.Err.injEq] at h
      refine ⟨0, x, e0, rfl, hx, ?_⟩
      cases e0
      simp_all
    | Ok w =>
      rw [hx] at h
      cases hrec : parseElems p (i + 1) xs with
      | Ok ws => rw [hrec] at h; simp at h
      | Err e1 =>
        rw [hrec] at h
        simp only [Result.Err.injEq] at h
        obtain ⟨j, y, e', hy, hpe, heq⟩ := ih (i + 1) e1 hrec
        refine ⟨j + 1, y, e', by simpa using hy, hpe, ?_⟩
        rw [← h, heq]
        have : i + 1 + j = i + (j + 1) := by omega
        rw [this]

/-- Every error of the object field loop is some declared field's error
with that field's key prepended as the only new path segment; message
and offending input are the child's. -/
theorem parseShape_err :
    ∀ (sh : ShapeL) (v : JSValue) (e : ParseError),
      parseShape sh v = Err e →
      ∃ k s e', shapeMem k s sh ∧ parse s (getField v k) = Err e' ∧
        e = ⟨k :: e'.path, e'.message, e'.input⟩ := by
  refine shapeSpineInd _ ?_ ?_
  · intro v e h; simp [parseShape] at h
  · intro key s rest ih v e h
    simp only [parseShape] at h
    cases hx : parse s (getField v key) with
    | Err e0 =>
      rw [hx] at h
      simp only [Result.Err.injEq] at h
      refine ⟨key, s, e0, Or.inl ⟨rfl, rfl⟩, hx, ?_⟩
      cases e0
      simp_all [shapeMem]
    | Ok w =>
      rw [hx] at h
      cases hrec : parseShape rest v with
      | Ok fl => rw [hrec] at h; simp at h
      | Err e1 =>
        rw [hrec] at h
        simp only [Result.Err.injEq] at h
        obtain ⟨k, s', e', hmem, hpe, heq⟩ := ih v e1 hrec
        exact ⟨k, s', e', Or.inr hmem, hpe, by rw [← h, heq]⟩

/-- C1: every error an `array` validator returns is either its own
"Expecting array" error with empty path, or a failing element's error
with exactly the zero-based element index (as a string) prepended to the
path, message and offending sub-value unchanged; every error an `object`
validator returns is either its own "Expecting object" error with empty
path, or a declared field's error with exactly the field name prepended;
and on `object(\x7bitems: array(object(\x7bn: number()\x7d))\x7d)` applied to
`\x7bitems: [\x7bn: 1\x7d, \x7bn: "x"\x7d]\x7d` the result is `Err` with path
`["items", "1", "n"]`, message and sub-value taken from the failing
leaf check. -/
theorem c1_nested_path_composition :
    (∀ s v e, parse (.array s) v = Err e →
        e = ⟨[], "Expecting array", v⟩ ∨
        ∃ l j x e', v = .vArr l ∧ l.get? j = some x ∧ parse s x = Err e' ∧
          e = ⟨toString j :: e'.path, e'.message, e'.input⟩) ∧
    (∀ sh v e, parse (.object sh) v = Err e →
        e = ⟨[], "Expecting object", v⟩ ∨
        ∃ k s e', shapeMem k s sh ∧ parse s (getField v k) = Err e' ∧
          e = ⟨k :: e'.path, e'.message, e'.input⟩) ∧
    parse (.object (.scons "items"
        (.array (.object (.scons "n" .number .snil))) .snil))
      (.vObj .pobject [("items", .vArr
        [ .vObj .pobject [("n", .vNum (.finite 1))],
          .vObj .pobject [("n", .vStr "x")]])])
      = Err { path := ["items", "1", "n"], message := "Expecting number",
              input := .vStr "x" } := by
  refine ⟨?_, ?_, rfl⟩
  · intro s v e h
    cases v
    case vArr l =>
      simp only [parse] at h
      cases hrec : parseElems (parse s) 0 l with
      | Ok ws => rw [hrec] at h; simp at h
      | Err e1 =>
        rw [hrec] at h
        simp only [Result.Err.injEq] at h
        obtain ⟨j, x, e', hx, hpe, heq⟩ := parseElems_err (parse s) l 0 e1 hrec
        have heq2 : e = ⟨toString j :: e'.path, e'.message, e'.input⟩ := by
          rw [← h, heq]; simp
        exact Or.inr ⟨l, j, x, e', rfl, hx, hpe, heq2⟩
    all_goals (simp only [parse, createErr, Result.Err.injEq] at h; exact Or.inl h.symm)
  · intro sh v e h
    simp only [parse] at h
    by_cases hp : isPlainObject v
    · rw [if_pos hp] at h
      cases hrec : parseShape sh v with
      | Ok fl => rw [hrec] at h; simp at h
      | Err e1 =>
        rw [hrec] at h
        simp only [Result.Err.injEq] at h
        obtain ⟨k, s, e', hmem, hpe, heq⟩ := parseShape_err sh v e1 hrec
        exact Or.inr ⟨k, s, e', hmem, hpe, by rw [← h, heq]⟩
    · rw [if_neg hp] at h
      simp only [createErr, Result.Err.injEq] at h
      exact Or.inl h.symm

/-- Witness for `c1_nested_path_composition`: instantiating the array
part at `array(number())` applied to `["x"]`, whose error decomposes as
index "0" prepended to the leaf's "Expecting number" error. -/
theorem c1_nested_path_composition_witness :
    ({ path := ["0"], message := "Expecting number",
       input := JSValue.vStr "x" } : ParseError)
      = ⟨[], "Expecting array", .vArr [.vStr "x"]⟩ ∨
    ∃ l j x e', (JSValue.vArr [.vStr "x"]) = .vArr l ∧
      l.get? j = some x ∧ parse .number x = Err e' ∧
      ({ path := ["0"], message := "Expecting number",
         input := JSValue.vStr "x" } : ParseError)
        = ⟨toString j :: e'.path, e'.message, e'.input⟩ :=
  c1_nested_path_composition.1 .number (.vArr [.vStr "x"])
    { path := ["0"], message := "Expecting number", input := .vStr "x" } rfl

/-- C2: `object` iterates the shape's fields in declared order —
`object(\x7ba: number(), b: string()\x7d)` on `\x7ba: "bad", b: 1\x7d` reports path
`["a"]`, not `["b"]`; a missing key passes `undefined` to the child; and
on the first child failure the result is returned immediately, whatever
the remaining fields are (the error is the same for every `rest`). -/
theorem c2_object_declared_order_first_failure :
    (parse (.object (.scons "a" .number (.scons "b" .string .snil)))
        (.vObj .pobject [("a", .vStr "bad"), ("b", .vNum (.finite 1))])
      = Err { path := ["a"], message := "Expecting number",
              input := .vStr "bad" }) ∧
    (∀ v k, (fieldsOf v).lookup k = none → getField v k = .vUndefined) ∧
    (∀ key s rest v e', isPlainObject v = true →
        parse s (getField v key) = Err e' →
        parse (.object (.scons key s rest)) v
          = Err ⟨key :: e'.path, e'.message, e'.input⟩) := by
  refine ⟨rfl, ?_, ?_⟩
  · intro v k h
    simp [getField, h]
  · intro key s rest v e' hp hx
    simp only [parse, hp, if_true, parseShape, hx]

/-- Witness for `c2_object_declared_order_first_failure`: a key absent
from `\x7ba: 1\x7d` reads as `undefined`, and the first-field failure of
`object(\x7ba: number(), b: string()\x7d)` on `\x7ba: "bad"\x7d` short-circuits with
path `["a"]`. -/
theorem c2_object_declared_order_first_failure_witness :
    getField (.vObj .pobject [("a", .vNum (.finite 1))]) "b" = .vUndefined ∧
    parse (.object (.scons "a" .number (.scons "b" .string .snil)))
        (.vObj .pobject [("a", .vStr "bad")])
      = Err ⟨"a" :: [], "Expecting number", .vStr "bad"⟩ :=
  ⟨c2_object_declared_order_first_failure.2.1
      (.vObj .pobject [("a", .vNum (.finite 1))]) "b" rfl,
   c2_object_declared_order_first_failure.2.2 "a" .number
      (.scons "b" .string .snil) (.vObj .pobject [("a", .vStr "bad")])
      { path := [], message := "Expecting number", input := .vStr "bad" }
      rfl rfl⟩

/-- On a non-nil input, a successful parse never yields a nil value, so
`from` applied to the value behaves as `Some`. -/
theorem parse_ok_not_nil :
    ∀ s v w, isNil v = false → parse s v = Ok w → isNil w = false := by
  refine schSpineInd (fun s => ∀ v w, isNil v = false → parse s v = Ok w →
    isNil w = false) ?_ ?_ ?_ ?_ ?_ ?_ ?_ ?_
  · intro v w hv h
    cases v <;> simp [parse, createErr] at h <;> simp [← h, isNil]
  · intro v w hv h
    simp only [parse] at h
    cases hf : isFiniteNumber v with
    | false => rw [hf] at h; simp [createErr] at h
    | true =>
      rw [hf] at h
      simp only [if_true, Result.Ok.injEq] at h
      subst h
      cases v <;> simp_all [isFiniteNumber, isNil]
  · intro v w hv h
    cases v <;> simp [parse, createErr] at h <;> simp [← h, isNil]
  · intro v w hv h
    cases v <;> simp [parse, createErr] at h
    case vDate t =>
      cases hf : jsNumIsFinite t <;> simp_all [createErr, isNil]
      simp [← h, isNil]
  · intro s ih v w hv h
    cases v <;> simp [parse, createErr] at h
    case vArr l =>
      cases hrec : parseElems (parse s) 0 l <;> simp_all [isNil]
      simp [← h, isNil]
  · intro sh v w hv h
    simp only [parse] at h
    cases hp : isPlainObject v <;> rw [hp] at h <;> simp [createErr] at h
    cases hrec : parseShape sh v <;> simp_all [isNil]
    simp [← h, isNil]
  · intro s ih v w hv h
    simp only [parse, hv, if_false] at h
    cases hx : parse s v <;> simp_all [rmap]
    rw [← h, optionFrom]
    split <;> rfl
  · intro s d ih v w hv h
    simp only [parse, hv, if_false] at h
    exact ih v w hv h

/-- C4: `optional(s)` succeeds with `None` on absent input for every
child `s` (the child is never consulted), wraps a present success in
`Some`, and propagates a present failure's error unchanged — no path
segment added; the spec's three concrete transparency examples follow. -/
theorem c4_optional_transparency :
    (∀ s v, isNil v = true → parse (.optional s) v = Ok .vNone) ∧
    (∀ s v w, isNil v = false → parse s v = Ok w →
        parse (.optional s) v = Ok (.vSome w)) ∧
    (∀ s v e, isNil v = false → parse s v = Err e →
        parse (.optional s) v = Err e) ∧
    parse (.optional .number) .vUndefined = Ok .vNone ∧
    parse (.optional .number) (.vStr "x")
      = Err ⟨[], "Expecting number", .vStr "x"⟩ ∧
    parse (.optional .number) (.vNum (.finite 5))
      = Ok (.vSome (.vNum (.finite 5))) := by
  refine ⟨?_, ?_, ?_, rfl, rfl, rfl⟩
  · intro s v hv
    simp [parse, hv]
  · intro s v w hv h
    have hw := parse_ok_not_nil s v w hv h
    simp [parse, hv, h, rmap, optionFrom, hw]
  · intro s v e hv h
    simp [parse, hv, h, rmap]

/-- Witness for `c4_optional_transparency`: the spec's transparency
triple at `optional(number())`, obtained by instantiating the three
universal parts at `undefined`, `5`, and `"x"`. -/
theorem c4_optional_transparency_witness :
    parse (.optional .number) .vNull = Ok .vNone ∧
    parse (.optional .number) (.vNum (.finite 5))
      = Ok (.vSome (.vNum (.finite 5))) ∧
    parse (.optional .number) (.vStr "x")
      = Err ⟨[], "Expecting number", .vStr "x"⟩ :=
  ⟨c4_optional_transparency.1 .number .vNull rfl,
   c4_optional_transparency.2.1 .number (.vNum (.finite 5))
     (.vNum (.finite 5)) rfl rfl,
   c4_optional_transparency.2.2.1 .number (.vStr "x")
     ⟨[], "Expecting number", .vStr "x"⟩ rfl rfl⟩

/-- C5: `defaulted(s, d)` returns `Ok(d)` on absent input — for every
`d`, validated or not — and otherwise delegates to `s` unchanged; its
`type` label is inherited from the child.  The last conjunct shows the
default is not re-validated: `number()` would reject `"nope"`, yet it is
returned as-is. -/
theorem c5_defaulted_trust :
    (∀ s d v, isNil v = true → parse (.defaulted s d) v = Ok d) ∧
    (∀ s d v, isNil v = false → parse (.defaulted s d) v = parse s v) ∧
    (∀ s d, typeOf (.defaulted s d) = typeOf s) ∧
    parse (.defaulted .number (.vNum (.finite 0))) .vUndefined
      = Ok (.vNum (.finite 0)) ∧
    parse (.defaulted .number (.vStr "nope")) .vNull = Ok (.vStr "nope") := by
  refine ⟨?_, ?_, ?_, rfl, rfl⟩
  · intro s d v hv
    simp [parse, hv]
  · intro s d v hv
    simp [parse, hv]
  · intro s d
    rfl

/-- Witness for `c5_defaulted_trust`: the spec's example
`defaulted(number(), 0).validate(undefined) = Ok(0)` and the delegation
to the child on the present input `1`. -/
theorem c5_defaulted_trust_witness :
    parse (.defaulted .number (.vNum (.finite 0))) .vNull
      = Ok (.vNum (.finite 0)) ∧
    parse (.defaulted .number (.vNum (.finite 0))) (.vNum (.finite 1))
      = parse .number (.vNum (.finite 1)) :=
  ⟨c5_defaulted_trust.1 .number (.vNum (.finite 0)) .vNull rfl,
   c5_defaulted_trust.2.1 .number (.vNum (.finite 0)) (.vNum (.finite 1)) rfl⟩

/-- C6: `number()` accepts exactly the finite numeric values, returning
the same value, and rejects everything else — including `NaN`,
`Infinity`, `-Infinity` and the numeric string `"1"` — with
"Expecting number" and an empty path. -/
theorem c6_number_finite_rule :
    (∀ v, isFiniteNumber v = true → parse .number v = Ok v) ∧
    (∀ v, isFiniteNumber v = false →
        parse .number v = Err ⟨[], "Expecting number", v⟩) ∧
    parse .number (.vNum (.finite (314 / 100)))
      = Ok (.vNum (.finite (314 / 100))) ∧
    parse .number (.vNum .nan) = Err ⟨[], "Expecting number", .vNum .nan⟩ ∧
    parse .number (.vNum .inf) = Err ⟨[], "Expecting number", .vNum .inf⟩ ∧
    parse .number (.vNum .neginf)
      = Err ⟨[], "Expecting number", .vNum .neginf⟩ ∧
    parse .number (.vStr "1") = Err ⟨[], "Expecting number", .vStr "1"⟩ := by
  refine ⟨?_, ?_, rfl, rfl, rfl, rfl, rfl⟩
  · intro v hv
    simp [parse, hv]
  · intro v hv
    simp [parse, hv, createErr]

/-- Witness for `c6_number_finite_rule`: 3.14 is accepted unchanged and
the boolean `true` is rejected, by instantiating the universal parts. -/
theorem c6_number_finite_rule_witness :
    parse .number (.vNum (.finite (314 / 100)))
      = Ok (.vNum (.finite (314 / 100))) ∧
    parse .number (.vBool true) = Err ⟨[], "Expecting number", .vBool true⟩ :=
  ⟨c6_number_finite_rule.1 (.vNum (.finite (314 / 100))) rfl,
   c6_number_finite_rule.2.1 (.vBool true) rfl⟩

/-- C7: `object(shape)` fails with "Expecting object" and empty path on
every input that is not a plain keyed structure — nil, or prototype
neither absent nor the default one — in particular on arrays, dates and
class instances. -/
theorem c7_object_plain_rejection :
    (∀ sh v, isPlainObject v = false →
        parse (.object sh) v = Err ⟨[], "Expecting object", v⟩) ∧
    (∀ sh l, parse (.object sh) (.vArr l)
        = Err ⟨[], "Expecting object", .vArr l⟩) ∧
    (∀ sh t, parse (.object sh) (.vDate t)
        = Err ⟨[], "Expecting object", .vDate t⟩) ∧
    (∀ sh c fl, parse (.object sh) (.vObj (.pother c) fl)
        = Err ⟨[], "Expecting object", .vObj (.pother c) fl⟩) ∧
    (∀ sh, parse (.object sh) .vNull = Err ⟨[], "Expecting object", .vNull⟩) ∧
    (∀ sh, parse (.object sh) .vUndefined
        = Err ⟨[], "Expecting object", .vUndefined⟩) := by
  have hmain : ∀ sh v, isPlainObject v = false →
      parse (.object sh) v = Err ⟨[], "Expecting object", v⟩ := by
    intro sh v hv
    simp [parse, hv, createErr]
  exact ⟨hmain, fun sh l => hmain sh (.vArr l) rfl,
    fun sh t => hmain sh (.vDate t) rfl,
    fun sh c fl => hmain sh (.vObj (.pother c) fl) rfl,
    fun sh => hmain sh .vNull rfl, fun sh => hmain sh .vUndefined rfl⟩

/-- Witness for `c7_object_plain_rejection`: the empty array is not a
plain object and is rejected by `object(\x7b\x7d)`. -/
theorem c7_object_plain_rejection_witness :
    parse (.object .snil) (.vArr [])
      = Err ⟨[], "Expecting object", .vArr []⟩ :=
  c7_object_plain_rejection.1 .snil (.vArr []) rfl

/-- A successful run of the object field loop binds exactly the shape's
keys, in declaration order. -/
theorem parseShape_ok_keys :
    ∀ sh v fl, parseShape sh v = Ok fl → fl.map Prod.fst = shapeKeys sh := by
  refine shapeSpineInd _ ?_ ?_
  · intro v fl h
    simp only [parseShape, Result.Ok.injEq] at h
    simp [← h, shapeKeys]
  · intro key s rest ih v fl h
    simp only [parseShape] at h
    cases hx : parse s (getField v key) with
    | Err e => rw [hx] at h; simp at h
    | Ok w =>
      rw [hx] at h
      cases hrec : parseShape rest v with
      | Err e => rw [hrec] at h; simp at h
      | Ok fl' =>
        rw [hrec] at h
        simp only [Result.Ok.injEq] at h
        simp [← h, shapeKeys, ih v fl' hrec]

/-- C8: a successful `object(shape)` validation returns a newly built
record (with no prototype) holding exactly the shape's fields — keys on
the input that the shape does not declare are dropped, as in
`object(\x7ba: number()\x7d).validate(\x7ba: 1, z: 99\x7d) = Ok(\x7ba: 1\x7d)`. -/
theorem c8_object_drops_extra_keys :
    (∀ sh v out, parse (.object sh) v = Ok out →
        ∃ fl, out = .vObj .pnull fl ∧ fl.map Prod.fst = shapeKeys sh) ∧
    parse (.object (.scons "a" .number .snil))
        (.vObj .pobject [("a", .vNum (.finite 1)), ("z", .vNum (.finite 99))])
      = Ok (.vObj .pnull [("a", .vNum (.finite 1))]) := by
  refine ⟨?_, rfl⟩
  intro sh v out h
  simp only [parse] at h
  cases hp : isPlainObject v with
  | false => rw [hp] at h; simp [createErr] at h
  | true =>
    rw [hp] at h
    simp only [if_true] at h
    cases hrec : parseShape sh v with
    | Err e => rw [hrec] at h; simp at h
    | Ok fl =>
      rw [hrec] at h
      simp only [Result.Ok.injEq] at h
      exact ⟨fl, h.symm, parseShape_ok_keys sh v fl hrec⟩

/-- Witness for `c8_object_drops_extra_keys`: instantiating the
universal part at the spec's example yields the reconstructed record's
shape: a bare record with exactly the key "a". -/
theorem c8_object_drops_extra_keys_witness :
    ∃ fl, (JSValue.vObj .pnull [("a", .vNum (.finite 1))])
        = .vObj .pnull fl ∧
      fl.map Prod.fst = shapeKeys (.scons "a" .number .snil) :=
  c8_object_drops_extra_keys.1 (.scons "a" .number .snil)
    (.vObj .pobject [("a", .vNum (.finite 1)), ("z", .vNum (.finite 99))])
    (.vObj .pnull [("a", .vNum (.finite 1))]) rfl

/-- If every child call is abort-free, so is the `mod.ts` element loop:
its fatal accessors are only reached on the variant `isErr` just
established. -/
theorem modParseElems_isSome
    (p : JSValue → Option (Result JSValue ParseError × Nat))
    (hp : ∀ x, (p x).isSome = true) :
    ∀ (l : List JSValue) (i : Nat), (modParseElems p i l).isSome = true := by
  intro l
  induction l with
  | nil => intro i; simp [modParseElems]
  | cons x xs ih =>
    intro i
    simp only [modParseElems]
    cases hx : p x with
    | none => have h2 := hp x; rw [hx] at h2; simp at h2
    | some rn =>
      obtain ⟨r, n⟩ := rn
      cases r with
      | Err e => simp [isErr, unwrapErr]
      | Ok w =>
        simp only [isErr, unwrap, Bool.false_eq_true, if_false]
        cases hrec : modParseElems p (i + 1) xs with
        | none => have h2 := ih (i + 1); rw [hrec] at h2; simp at h2
        | some rm =>
          obtain ⟨r2, m⟩ := rm
          cases r2 <;> simp

/-- No `mod.ts` validator ever aborts: every invocation of the fatal
`unwrap`/`unwrapErr` accessors happens on the variant already checked,
so `parse` totally returns a `Result` for every schema and input. -/
theorem modParse_no_abort_all :
    (∀ s, ∀ v, (modParse s v).isSome = true) ∧
    (∀ sh, ∀ v, (modParseShape sh v).isSome = true) := by
  refine schShapeInd _ _ ?_ ?_ ?_ ?_ ?_ ?_ ?_ ?_ ?_ ?_
  · intro v; simp [modParse]
  · intro v; simp [modParse]
  · intro v; simp [modParse]
  · intro v; simp [modParse]
  · intro s ih v
    cases v <;> simp only [modParse] <;> try simp
    case vArr l =>
      cases hrec : modParseElems (modParse s) 0 l with
      | none =>
        have h2 := modParseElems_isSome (modParse s) ih l 0
        rw [hrec] at h2; simp at h2
      | some rm =>
        obtain ⟨r, m⟩ := rm
        cases r <;> simp
  · intro sh ih v
    simp only [modParse]
    cases hp : isPlainObject v with
    | false => simp
    | true =>
      simp only [if_true]
      cases hrec : modParseShape sh v with
      | none => have h2 := ih v; rw [hrec] at h2; simp at h2
      | some rm =>
        obtain ⟨r, m⟩ := rm
        cases r <;> simp
  · intro s ih v
    simp only [modParse]
    cases hn : isNil v with
    | true => simp
    | false =>
      simp only [Bool.false_eq_true, if_false]
      cases hx : modParse s v with
      | none => have h2 := ih v; rw [hx] at h2; simp at h2
      | some rn => simp
  · intro s d ih v
    simp only [modParse]
    cases hn : isNil v with
    | true => simp
    | false => simpa using ih v
  · intro v; simp [modParseShape]
  · intro key s rest ihs ihr v
    simp only [modParseShape]
    cases hx : modParse s (getField v key) with
    | none => have h2 := ihs (getField v key); rw [hx] at h2; simp at h2
    | some rn =>
      obtain ⟨r, n⟩ := rn
      cases r with
      | Err e => simp [isErr, unwrapErr]
      | Ok w =>
        simp only [isErr, unwrap, Bool.false_eq_true, if_false]
        cases hrec : modParseShape rest v with
        | none => have h2 := ihr v; rw [hrec] at h2; simp at h2
        | some rm =>
          obtain ⟨r2, m⟩ := rm
          cases r2 <;> simp

/-- C3 (amended): both engines are total on malformed input — the
`schema.ts` validator always returns `Ok` or `Err`, and the `mod.ts`
validator never aborts (its fatal accessor calls are all
variant-checked). -/
theorem c3_validate_total_never_aborts :
    (∀ s v, (∃ w, parse s v = Ok w) ∨ (∃ e, parse s v = Err e)) ∧
    (∀ s v, (modParse s v).isSome = true) := by
  refine ⟨?_, fun s v => modParse_no_abort_all.1 s v⟩
  intro s v
  cases h : parse s v with
  | Ok w => exact Or.inl ⟨w, rfl⟩
  | Err e => exact Or.inr ⟨e, rfl⟩

/-- C3 counterexample: the claim also says the engine's control flow
never invokes the fatal `unwrap`/`unwrapErr`/`expect` accessors on data
derived from untrusted input.  The `Nat` component of `modParse` counts
exactly those invocations, and `mod.ts`'s array validator performs one
`unwrapErr` call while rejecting `["x"]` — the count is 1, not 0. -/
theorem c3_counterexample :
    modParse (.array .number) (.vArr [.vStr "x"])
      = some (Err ⟨["0"], "Expecting finite number", .vStr "x"⟩, 1) ∧
    (1 : Nat) ≠ 0 :=
  ⟨rfl, by decide⟩

/-- If a child agrees across the two modules up to message renaming, so
do the two element loops. -/
theorem modParseElems_agree
    (pS : JSValue → Result JSValue ParseError)
    (pM : JSValue → Option (Result JSValue ParseError × Nat))
    (hp : ∀ x, ∃ n, pM x = some (renameRes (pS x), n)) :
    ∀ (l : List JSValue) (i : Nat),
      ∃ n, modParseElems pM i l = some (renameRes (parseElems pS i l), n) := by
  intro l
  induction l with
  | nil => exact fun i => ⟨0, rfl⟩
  | cons x xs ih =>
    intro i
    obtain ⟨n, hn⟩ := hp x
    cases hx : pS x with
    | Err e =>
      rw [hx] at hn
      refine ⟨n + 1, ?_⟩
      simp [modParseElems, parseElems, hn, hx, renameRes, isErr,
        unwrapErr, renameErr]
    | Ok w =>
      rw [hx] at hn
      obtain ⟨m, hm⟩ := ih (i + 1)
      cases hrec : parseElems pS (i + 1) xs with
      | Err e =>
        rw [hrec] at hm
        refine ⟨n + 1 + m, ?_⟩
        simp [modParseElems, parseElems, hn, hx, hm, hrec, renameRes,
          isErr, unwrap]
      | Ok ws =>
        rw [hrec] at hm
        refine ⟨n + 1 + m, ?_⟩
        simp [modParseElems, parseElems, hn, hx, hm, hrec, renameRes,
          isErr, unwrap]

/-- The two modules agree on every schema and every input up to the
primitive message renaming: same variant, same success value, same error
path and offending input. -/
theorem modParse_agree_all :
    (∀ s, ∀ v, ∃ n, modParse s v = some (renameRes (parse s v), n)) ∧
    (∀ sh, ∀ v, ∃ n,
      modParseShape sh v = some (renameRes (parseShape sh v), n)) := by
  refine schShapeInd _ _ ?_ ?_ ?_ ?_ ?_ ?_ ?_ ?_ ?_ ?_
  · intro v
    refine ⟨0, ?_⟩
    cases v <;> rfl
  · intro v
    refine ⟨0, ?_⟩
    cases hf : isFiniteNumber v <;>
      simp [parse, modParse, hf, createErr, renameRes, renameErr, renameMsg]
  · intro v
    refine ⟨0, ?_⟩
    cases v <;> rfl
  · intro v
    refine ⟨0, ?_⟩
    cases v <;> try rfl
    case vDate t =>
      cases ht : jsNumIsFinite t <;> simp only [parse, modParse, ht] <;> rfl
  · intro s ih v
    cases v <;> try exact ⟨0, rfl⟩
    case vArr l =>
      obtain ⟨n, hn⟩ := modParseElems_agree (parse s) (modParse s) ih l 0
      cases hrec : parseElems (parse s) 0 l with
      | Err e =>
        rw [hrec] at hn
        exact ⟨n, by simp only [modParse, parse, hn, hrec, renameRes]⟩
      | Ok ws =>
        rw [hrec] at hn
        exact ⟨n, by simp only [modParse, parse, hn, hrec, renameRes]⟩
  · intro sh ih v
    cases hp : isPlainObject v with
    | false =>
      exact ⟨0, by simp [modParse, parse, hp, createErr, renameRes,
        renameErr, renameMsg]⟩
    | true =>
      obtain ⟨n, hn⟩ := ih v
      cases hrec : parseShape sh v with
      | Err e =>
        rw [hrec] at hn
        exact ⟨n, by simp only [modParse, parse, hp, if_true, hn, hrec,
          renameRes]⟩
      | Ok fl =>
        rw [hrec] at hn
        exact ⟨n, by simp only [modParse, parse, hp, if_true, hn, hrec,
          renameRes]⟩
  · intro s ih v
    cases hnil : isNil v with
    | true => exact ⟨0, by simp [modParse, parse, hnil, renameRes]⟩
    | false =>
      obtain ⟨n, hn⟩ := ih v
      cases hx : parse s v with
      | Err e =>
        rw [hx] at hn
        exact ⟨n, by simp only [modParse, parse, hnil, Bool.false_eq_true,
          if_false, hn, hx, renameRes, rmap, renameErr]⟩
      | Ok w =>
        rw [hx] at hn
        have hw : isNil w = false := parse_ok_not_nil s v w hnil hx
        refine ⟨n, ?_⟩
        simp only [modParse, parse, hnil, Bool.false_eq_true, if_false,
          hn, hx, renameRes, rmap, optionFrom, hw]
  · intro s d ih v
    cases hnil : isNil v with
    | true => exact ⟨0, by simp [modParse, parse, hnil, renameRes]⟩
    | false =>
      obtain ⟨n, hn⟩ := ih v
      exact ⟨n, by simp only [modParse, parse, hnil, Bool.false_eq_true,
        if_false, hn]⟩
  · exact fun v => ⟨0, rfl⟩
  · intro key s rest ihs ihr v
    obtain ⟨n, hn⟩ := ihs (getField v key)
    cases hx : parse s (getField v key) with
    | Err e =>
      rw [hx] at hn
      refine ⟨n + 1, ?_⟩
      simp [modParseShape, parseShape, hn, hx, renameRes, isErr,
        unwrapErr, renameErr]
    | Ok w =>
      rw [hx] at hn
      obtain ⟨m, hm⟩ := ihr v
      cases hrec : parseShape rest v with
      | Err e =>
        rw [hrec] at hm
        refine ⟨n + 1 + m, ?_⟩
        simp [modParseShape, parseShape, hn, hx, hm, hrec, renameRes,
          isErr, unwrap]
      | Ok fl =>
        rw [hrec] at hm
        refine ⟨n + 1 + m, ?_⟩
        simp [modParseShape, parseShape, hn, hx, hm, hrec, renameRes,
          isErr, unwrap]

/-- C9 counterexample: the two modules are not extensionally equal on
the `string` constructor — `schema.ts` reports "Expecting string" where
`mod.ts` reports "Not a string" (and similarly `number`:
"Expecting number" vs "Expecting finite number"). -/
theorem c9_counterexample :
    parse .string (.vNum (.finite 5))
      = Err ⟨[], "Expecting string", .vNum (.finite 5)⟩ ∧
    modParse .string (.vNum (.finite 5))
      = some (Err ⟨[], "Not a string", .vNum (.finite 5)⟩, 0) ∧
    ("Expecting string" : String) ≠ "Not a string" ∧
    parse .number (.vStr "1") = Err ⟨[], "Expecting number", .vStr "1"⟩ ∧
    modParse .number (.vStr "1")
      = some (Err ⟨[], "Expecting finite number", .vStr "1"⟩, 0) :=
  ⟨rfl, rfl, by decide, rfl, rfl⟩

/-- C9 (amended): for every constructor and every input the two
modules' validators agree up to the wording of the `string`/`number`
messages — identical variant, success value, error path and offending
sub-value, with only `renameMsg` applied to the message. -/
theorem c9_modules_agree_up_to_message :
    ∀ s v, ∃ n, modParse s v = some (renameRes (parse s v), n) :=
  fun s v => modParse_agree_all.1 s v

/-- Every value in a successful element-loop output is the successful
parse of some input element. -/
theorem parseElems_ok_mem (p : JSValue → Result JSValue ParseError) :
    ∀ (l : List JSValue) (i : Nat) (ws : List JSValue),
      parseElems p i l = Ok ws → ∀ w ∈ ws, ∃ x ∈ l, p x = Ok w := by
  intro l
  induction l with
  | nil =>
    intro i ws h w hw
    simp only [parseElems, Result.Ok.injEq] at h
    rw [← h] at hw
    simp at hw
  | cons x xs ih =>
    intro i ws h w hw
    simp only [parseElems] at h
    cases hx : p x with
    | Err e => rw [hx] at h; simp at h
    | Ok w0 =>
      rw [hx] at h
      cases hrec : parseElems p (i + 1) xs with
      | Err e => rw [hrec] at h; simp at h
      | Ok ws' =>
        rw [hrec] at h
        simp only [Result.Ok.injEq] at h
        rw [← h] at hw
        rcases List.mem_cons.mp hw with hw0 | hw'
        · exact ⟨x, List.mem_cons_self x xs, by rw [hx, hw0]⟩
        · obtain ⟨y, hy, hp⟩ := ih (i + 1) ws' hrec w hw'
          exact ⟨y, List.mem_cons_of_mem x hy, hp⟩

/-- A list of fixed points of the child parser passes the element loop
unchanged, from any starting index. -/
theorem parseElems_fixed (p : JSValue → Result JSValue ParseError) :
    ∀ ws : List JSValue, (∀ w ∈ ws, p w = Ok w) →
      ∀ i, parseElems p i ws = Ok ws := by
  intro ws
  induction ws with
  | nil => intro _ i; rfl
  | cons w ws ih =>
    intro h i
    simp only [parseElems, h w (List.mem_cons_self w ws),
      ih (fun w' hw' => h w' (List.mem_cons_of_mem w hw')) (i + 1)]

/-- Re-validation stability of core schemas (no `date`, `optional`,
`defaulted`): a successful output is itself accepted, unchanged.  The
shape statement is generalized over the re-validation input `u`: it only
needs to read, on the shape's own keys, the same fields as the
reconstructed record. -/
theorem parse_core_stable_all :
    (∀ s, isCore s = true → ∀ v w, parse s v = Ok w → parse s w = Ok w) ∧
    (∀ sh, isCoreShape sh = true → ∀ v fl u, parseShape sh v = Ok fl →
      (∀ k, k ∈ shapeKeys sh →
        getField u k = getField (.vObj .pnull fl) k) →
      parseShape sh u = Ok fl) := by
  refine schShapeInd _ _ ?_ ?_ ?_ ?_ ?_ ?_ ?_ ?_ ?_ ?_
  · intro _ v w h
    cases v <;> simp [parse, createErr] at h <;> simp [← h, parse]
  · intro _ v w h
    simp only [parse] at h
    cases hf : isFiniteNumber v with
    | false => rw [hf] at h; simp [createErr] at h
    | true =>
      rw [hf] at h
      simp only [if_true, Result.Ok.injEq] at h
      subst h
      simp [parse, hf]
  · intro _ v w h
    cases v <;> simp [parse, createErr] at h <;> simp [← h, parse]
  · intro hcore
    simp [isCore] at hcore
  · intro s ih hcore v w h
    simp only [isCore] at hcore
    cases v <;> simp only [parse, createErr] at h <;> try simp at h
    case vArr l =>
      cases hrec : parseElems (parse s) 0 l with
      | Err e => rw [hrec] at h; simp at h
      | Ok ws =>
        rw [hrec] at h
        simp only [Result.Ok.injEq] at h
        subst h
        have hfix : ∀ w' ∈ ws, parse s w' = Ok w' := by
          intro w' hw'
          obtain ⟨x, _, hx⟩ := parseElems_ok_mem (parse s) l 0 ws hrec w' hw'
          exact ih hcore x w' hx
        simp only [parse, parseElems_fixed (parse s) ws hfix 0]
  · intro sh ih hcore v w h
    simp only [isCore] at hcore
    simp only [parse] at h
    cases hp : isPlainObject v with
    | false => rw [hp] at h; simp [createErr] at h
    | true =>
      rw [hp] at h
      simp only [if_true] at h
      cases hrec : parseShape sh v with
      | Err e => rw [hrec] at h; simp at h
      | Ok fl =>
        rw [hrec] at h
        simp only [Result.Ok.injEq] at h
        subst h
        have hre : parseShape sh (.vObj .pnull fl) = Ok fl :=
          ih hcore v fl (.vObj .pnull fl) hrec (fun k _ => rfl)
        simp only [parse, hre]
        rfl
  · intro s ih hcore
    simp [isCore] at hcore
  · intro s d ih hcore
    simp [isCore] at hcore
  · intro _ v fl u h _
    simp only [parseShape, Result.Ok.injEq] at h
    simp [parseShape, ← h]
  · intro key s rest ihs ihr hcore v fl u hparse hagree
    simp only [isCoreShape, Bool.and_eq_true, Bool.not_eq_true'] at hcore
    obtain ⟨⟨hni, hs⟩, hrest⟩ := hcore
    simp only [parseShape] at hparse
    cases hx : parse s (getField v key) with
    | Err e => rw [hx] at hparse; simp at hparse
    | Ok w =>
      rw [hx] at hparse
      cases hrec : parseShape rest v with
      | Err e => rw [hrec] at hparse; simp at hparse
      | Ok fl' =>
        rw [hrec] at hparse
        simp only [Result.Ok.injEq] at hparse
        subst hparse
        have hkey : key ∈ shapeKeys (.scons key s rest) := by
          simp [shapeKeys]
        have hu : getField u key = w := by
          rw [hagree key hkey]
          simp [getField, fieldsOf]
        have hnotmem : key ∉ shapeKeys rest := by
          simpa using hni
        have hagree' : ∀ k, k ∈ shapeKeys rest →
            getField u k = getField (.vObj .pnull fl') k := by
          intro k hk
          have hne : (k == key) = false := by
            simp only [beq_eq_false_iff_ne, ne_eq]
            intro hkk
            exact hnotmem (hkk ▸ hk)
          rw [hagree k (by simp [shapeKeys, hk])]
          simp [getField, fieldsOf, List.lookup, hne]
        have hre : parseShape rest u = Ok fl' :=
          ihr hrest v fl' u hrec hagree'
        simp only [parseShape, hu, ihs hs (getField v key) w hx, hre]

/-- C10: schemas built only from `string()`, `number()`, `boolean()`,
`array(...)` and `object(...)` accept their own output unchanged: if
`validate(input)` is `Ok(v)` then `validate(v)` is `Ok(v)` — in
particular the record `object` rebuilds with no prototype passes the
plain-object check again. -/
theorem c10_revalidation_stable :
    ∀ s v w, isCore s = true → parse s v = Ok w → parse s w = Ok w :=
  fun s v w hc h => parse_core_stable_all.1 s hc v w h

/-- Witness for `c10_revalidation_stable`: the output
`Ok(\x7ba: 1\x7d)` of `object(\x7ba: number()\x7d)` on `\x7ba: 1, z: 99\x7d` — a bare
record with no prototype — is itself accepted, unchanged. -/
theorem c10_revalidation_stable_witness :
    isCore (.object (.scons "a" .number .snil)) = true ∧
    parse (.object (.scons "a" .number .snil))
        (.vObj .pobject [("a", .vNum (.finite 1)), ("z", .vNum (.finite 99))])
      = Ok (.vObj .pnull [("a", .vNum (.finite 1))]) ∧
    parse (.object (.scons "a" .number .snil))
        (.vObj .pnull [("a", .vNum (.finite 1))])
      = Ok (.vObj .pnull [("a", .vNum (.finite 1))]) :=
  ⟨rfl, rfl,
   c10_revalidation_stable (.object (.scons "a" .number .snil))
     (.vObj .pobject [("a", .vNum (.finite 1)), ("z", .vNum (.finite 99))])
     (.vObj .pnull [("a", .vNum (.finite 1))]) rfl rfl⟩
